import Mathlib

/-!
Verification of the position-reconstruction engine and builder-attribution
matcher of hypr_ledger.

Numeric fields (prices, sizes, PnL) are embedded as rationals; timestamps as
integers.  The Python code's `1e-10` flatness epsilon is the rational
`1 / 10^10`.  `MatchResult` (a Python `set[int]`) is embedded as the list of
matched indices in insertion order; the engine only tests membership.

Rational arithmetic is performed through the executable wrappers
`qadd`, `qsub`, `qmul`, `qdiv`, `qneg`, `qabs` below, each of which is proved
equal to the corresponding Mathlib operation on `ℚ` (`qadd_eq_add` etc.), so
that concrete runs of the engine reduce inside the kernel.
-/

namespace HyprLedger

/-- Executable rational addition; equals `a + b` by `qadd_eq_add`. -/
def qadd (a b : ℚ) : ℚ := mkRat (a.num * b.den + b.num * a.den) (a.den * b.den)

/-- Executable rational negation; equals `-a` by `qneg_eq_neg`. -/
def qneg (a : ℚ) : ℚ := mkRat (-a.num) a.den

/-- Executable rational subtraction; equals `a - b` by `qsub_eq_sub`. -/
def qsub (a b : ℚ) : ℚ := qadd a (qneg b)

/-- Executable rational multiplication; equals `a * b` by `qmul_eq_mul`. -/
def qmul (a b : ℚ) : ℚ := mkRat (a.num * b.num) (a.den * b.den)

/-- Executable rational inverse; equals `a⁻¹` by `qinv_eq_inv`. -/
def qinv (a : ℚ) : ℚ :=
  if a.num = 0 then 0
  else mkRat (if 0 ≤ a.num then (a.den : ℤ) else -(a.den : ℤ)) a.num.natAbs

/-- Executable rational division; equals `a / b` by `qdiv_eq_div`. -/
def qdiv (a b : ℚ) : ℚ := qmul a (qinv b)

/-- Executable rational absolute value; equals `|a|` by `qabs_eq_abs`. -/
def qabs (a : ℚ) : ℚ := if a < 0 then qneg a else a

theorem qadd_eq_add (a b : ℚ) : qadd a b = a + b := by
  rw [qadd, Rat.mkRat_eq_divInt]
  conv_rhs => rw [← Rat.num_divInt_den a, ← Rat.num_divInt_den b]
  rw [Rat.divInt_add_divInt _ _
    (by exact_mod_cast a.den_ne_zero) (by exact_mod_cast b.den_ne_zero)]
  push_cast
  ring_nf

theorem qneg_eq_neg (a : ℚ) : qneg a = -a := by
  rw [qneg, Rat.mkRat_eq_divInt, ← Rat.neg_def]

theorem qsub_eq_sub (a b : ℚ) : qsub a b = a - b := by
  rw [qsub, qadd_eq_add, qneg_eq_neg, ← sub_eq_add_neg]

theorem qmul_eq_mul (a b : ℚ) : qmul a b = a * b := by
  rw [qmul, Rat.mkRat_eq_divInt]
  conv_rhs => rw [← Rat.num_divInt_den a, ← Rat.num_divInt_den b]
  rw [Rat.divInt_mul_divInt']
  push_cast
  ring_nf

theorem qinv_eq_inv (a : ℚ) : qinv a = a⁻¹ := by
  rw [qinv]
  split_ifs with h0 hpos
  · obtain rfl : a = 0 := Rat.num_eq_zero.mp h0
    simp
  · rw [Rat.mkRat_eq_divInt, Rat.inv_def', Int.natAbs_of_nonneg hpos]
  · rw [Rat.mkRat_eq_divInt, Rat.inv_def',
      Int.ofNat_natAbs_of_nonpos (le_of_not_le hpos)]
    rw [Rat.divInt_neg, neg_neg]

theorem qdiv_eq_div (a b : ℚ) : qdiv a b = a / b := by
  rw [qdiv, qmul_eq_mul, qinv_eq_inv, div_eq_mul_inv]

theorem qabs_eq_abs (a : ℚ) : qabs a = |a| := by
  rw [qabs]
  split_ifs with h
  · rw [qneg_eq_neg, abs_of_neg h]
  · rw [abs_of_nonneg (le_of_not_lt h)]

/-- The flatness epsilon `1e-10` used by `PositionService` and
`PositionState.is_flat`; equals `1 / 10^10` by `eps_eq`. -/
def eps : ℚ := mkRat 1 10000000000

theorem eps_eq : eps = 1 / 10000000000 := by
  rw [eps, Rat.mkRat_eq_divInt, Rat.divInt_eq_div]
  norm_num

theorem eps_pos : 0 < eps := by
  rw [eps_eq]
  norm_num

/-- Embedding of `src/models/fill.py` `Fill` (the fields the engine and the
matcher read; string-typed numerics are already parsed). -/
structure Fill where
  coin : String
  px : ℚ
  sz : ℚ
  isBuy : Bool
  time : ℤ
  dir : String
  closedPnl : ℚ
  deriving DecidableEq

/-- `Fill.signed_size`: positive for buy, negative for sell. -/
def Fill.signedSize (f : Fill) : ℚ :=
  if f.isBuy then f.sz else qneg f.sz

/-- Embedding of `src/models/position.py` `PositionState`. -/
structure PositionState where
  timeMs : ℤ
  coin : String
  netSize : ℚ
  avgEntryPx : ℚ
  realizedPnl : ℚ
  tainted : Option Bool
  deriving DecidableEq

/-- The single-asset engine's running state apart from the cumulative PnL:
`net_size`, `avg_entry_px`, `lifecycle_start_idx`, `lifecycle_fills` of
`PositionService._reconstruct_position_history`. -/
structure SACore where
  netSize : ℚ
  avgEntryPx : ℚ
  lifecycleStart : Option ℕ
  lifecycleFills : List ℕ
  deriving DecidableEq

/-- Initial single-asset state: flat, no lifecycle. -/
def SACore.init : SACore :=
  { netSize := 0, avgEntryPx := 0, lifecycleStart := none, lifecycleFills := [] }

/-- One iteration of the single-asset loop body of
`PositionService._reconstruct_position_history` (lines 104-141), excluding
the cumulative-PnL update and the snapshot emission. -/
def saStepCore (fillIdx : ℕ) (c : SACore) (f : Fill) : SACore :=
  let signedSize := f.signedSize
  if qabs c.netSize < eps then
    { netSize := signedSize, avgEntryPx := f.px,
      lifecycleStart := some fillIdx, lifecycleFills := [fillIdx] }
  else if (c.netSize > 0 ∧ signedSize > 0) ∨ (c.netSize < 0 ∧ signedSize < 0) then
    let totalSize := qadd c.netSize signedSize
    { netSize := totalSize,
      avgEntryPx := qdiv (qadd (qmul (qabs c.netSize) c.avgEntryPx)
        (qmul (qabs signedSize) f.px)) (qabs totalSize),
      lifecycleStart := c.lifecycleStart,
      lifecycleFills := c.lifecycleFills ++ [fillIdx] }
  else
    let newSize := qadd c.netSize signedSize
    let lf := c.lifecycleFills ++ [fillIdx]
    if qabs newSize < eps then
      { netSize := 0, avgEntryPx := 0,
        lifecycleStart := c.lifecycleStart, lifecycleFills := lf }
    else if decide (newSize > 0) ≠ decide (c.netSize > 0) then
      { netSize := newSize, avgEntryPx := f.px,
        lifecycleStart := c.lifecycleStart, lifecycleFills := lf }
    else
      { netSize := newSize, avgEntryPx := c.avgEntryPx,
        lifecycleStart := c.lifecycleStart, lifecycleFills := lf }

/-- Taint verdict of a snapshot in single-asset mode
(`position_service.py` lines 142-146). -/
def saTaint (mr : Option (List ℕ)) (c : SACore) : Option Bool :=
  match mr with
  | none => none
  | some idxs =>
    match c.lifecycleStart with
    | none => none
    | some _ => some (c.lifecycleFills.any (fun i => !(idxs.contains i)))

/-- The single-asset reconstruction loop, emitting one `PositionState` per
fill (`position_service.py` lines 104-156). -/
def reconSingleAux (coinName : String) (mr : Option (List ℕ)) :
    ℕ → SACore → ℚ → List Fill → List PositionState
  | _, _, _, [] => []
  | idx, c, pnl, f :: rest =>
    let pnl2 := qadd pnl f.closedPnl
    let c2 := saStepCore idx c f
    { timeMs := f.time, coin := coinName, netSize := c2.netSize,
      avgEntryPx := c2.avgEntryPx, realizedPnl := pnl2,
      tainted := saTaint mr c2 } :: reconSingleAux coinName mr (idx + 1) c2 pnl2 rest

/-- `PositionService._reconstruct_position_history` in single-coin mode. -/
def reconstructSingle (coinName : String) (mr : Option (List ℕ))
    (fills : List Fill) : List PositionState :=
  reconSingleAux coinName mr 0 SACore.init 0 fills

/-- Association-list lookup, modelling Python `dict` access (`m.get(k)` /
`k in m`); insertion order is preserved by `alistSet`. -/
def alistGet {α : Type} (m : List (String × α)) (key : String) : Option α :=
  match m with
  | [] => none
  | (k, v) :: rest => if k = key then some v else alistGet rest key

/-- Association-list update-or-insert, modelling Python `dict` assignment:
an existing key keeps its position, a new key is appended. -/
def alistSet {α : Type} (m : List (String × α)) (key : String) (v : α) :
    List (String × α) :=
  match m with
  | [] => [(key, v)]
  | (k, w) :: rest =>
    if k = key then (key, v) :: rest else (k, w) :: alistSet rest key v

/-- The multi-coin engine's running state apart from the cumulative PnL:
`coin_positions` (per-coin `net_size`, `avg_entry_px`) and `coin_lifecycles`
of `PositionService._reconstruct_multi_coin_history`. -/
structure MCore where
  positions : List (String × ℚ × ℚ)
  lifecycles : List (String × List ℕ)
  deriving DecidableEq

/-- Initial multi-coin state: both dicts empty. -/
def MCore.init : MCore := { positions := [], lifecycles := [] }

/-- One iteration of the multi-coin loop body of
`PositionService._reconstruct_multi_coin_history` (lines 184-234), excluding
the cumulative-PnL update and the snapshot emission.  The same-sign branch
appends to the coin's lifecycle unconditionally, as the Python does (the
coin is always present there, having been inserted by its first,
flat-state fill). -/
def mcStepCore (fillIdx : ℕ) (st : MCore) (f : Fill) : MCore :=
  let coinName := f.coin
  let positions :=
    match alistGet st.positions coinName with
    | none => alistSet st.positions coinName (0, 0)
    | some _ => st.positions
  let pos := (alistGet positions coinName).getD (0, 0)
  let netSize := pos.1
  let avgEntryPx := pos.2
  let signedSize := f.signedSize
  if qabs netSize < eps then
    { positions := alistSet positions coinName (signedSize, f.px),
      lifecycles := alistSet st.lifecycles coinName [fillIdx] }
  else if (netSize > 0 ∧ signedSize > 0) ∨ (netSize < 0 ∧ signedSize < 0) then
    let totalSize := qadd netSize signedSize
    { positions := alistSet positions coinName
        (totalSize, qdiv (qadd (qmul (qabs netSize) avgEntryPx)
          (qmul (qabs signedSize) f.px)) (qabs totalSize)),
      lifecycles := alistSet st.lifecycles coinName
        ((alistGet st.lifecycles coinName).getD [] ++ [fillIdx]) }
  else
    let lifecycles :=
      match alistGet st.lifecycles coinName with
      | none => st.lifecycles
      | some lf => alistSet st.lifecycles coinName (lf ++ [fillIdx])
    let newSize := qadd netSize signedSize
    if qabs newSize < eps then
      { positions := alistSet positions coinName (0, 0), lifecycles := lifecycles }
    else if (netSize > 0 ∧ newSize < 0) ∨ (netSize < 0 ∧ newSize > 0) then
      { positions := alistSet positions coinName (newSize, f.px),
        lifecycles := lifecycles }
    else
      { positions := alistSet positions coinName (newSize, avgEntryPx),
        lifecycles := lifecycles }

/-- Combined taint verdict in multi-coin mode
(`position_service.py` lines 236-245): tainted iff some coin's recorded
lifecycle list is non-empty and contains an index outside the match set. -/
def mcTaint (mr : Option (List ℕ)) (lifecycles : List (String × List ℕ)) :
    Option Bool :=
  match mr with
  | none => none
  | some idxs =>
    some (lifecycles.any (fun e =>
      !e.2.isEmpty && e.2.any (fun i => !(idxs.contains i))))

/-- The multi-coin reconstruction loop, emitting one `PositionState` per fill
with `coin="ALL"`, `netSize=0`, `avgEntryPx=0`
(`position_service.py` lines 184-255). -/
def reconMultiAux (mr : Option (List ℕ)) :
    ℕ → MCore → ℚ → List Fill → List PositionState
  | _, _, _, [] => []
  | idx, st, pnl, f :: rest =>
    let pnl2 := qadd pnl f.closedPnl
    let st2 := mcStepCore idx st f
    { timeMs := f.time, coin := "ALL", netSize := 0, avgEntryPx := 0,
      realizedPnl := pnl2,
      tainted := mcTaint mr st2.lifecycles } :: reconMultiAux mr (idx + 1) st2 pnl2 rest

/-- `PositionService._reconstruct_multi_coin_history`. -/
def reconstructMulti (mr : Option (List ℕ)) (fills : List Fill) :
    List PositionState :=
  reconMultiAux mr 0 MCore.init 0 fills

/-- `PositionService._reconstruct_position_history`: dispatches on whether a
coin was requested (its empty-input early return is subsumed: both modes
yield `[]` on `[]`). -/
def reconstructPositionHistory (fills : List Fill) (coin : Option String)
    (mr : Option (List ℕ)) : List PositionState :=
  match coin with
  | none => reconstructMulti mr fills
  | some c => reconstructSingle c mr fills

/-- Python truthiness of an `Optional[int]` argument: `None` and `0` are
falsy.  Used by `get_position_history`'s `if builder_only and
builder_service and from_ms and to_ms`. -/
def truthyMs : Option ℤ → Bool
  | none => false
  | some x => decide (x ≠ 0)

/-- The `builder_fill_indices` selection of
`PositionService.get_position_history` (lines 55-66): the matcher's output is
used only when builder-only mode is on and the builder service and both time
bounds are (truthily) present; otherwise the set stays empty.  `none` (the
no-MatchResult sentinel) is passed to reconstruction only when builder-only
mode is off. -/
def selectBuilderIndices (builderOnly : Bool) (builderServicePresent : Bool)
    (fromMs toMs : Option ℤ) (matcherOutput : List ℕ) : Option (List ℕ) :=
  let indices : List ℕ :=
    if builderOnly && builderServicePresent && truthyMs fromMs && truthyMs toMs
    then matcherOutput else []
  if builderOnly then some indices else none

/-- Embedding of `src/services/builder_service.py` `BuilderFill` (the fields
`match_fills` reads; the ISO timestamp is already parsed to milliseconds and
records are already filtered to the target user upstream). -/
structure BuilderFill where
  time_ms : ℤ
  coin : String
  side : String
  px : ℚ
  sz : ℚ
  closed_pnl : ℚ
  builder_fee : ℚ
  deriving DecidableEq

/-- Substring test on character lists, modelling Python `sub in s`. -/
def charListHasSub (sub : List Char) : List Char → Bool
  | [] => sub.isEmpty
  | c :: rest => sub.isPrefixOf (c :: rest) || charListHasSub sub rest

/-- Python's `sub in s` on strings. -/
def strContains (s sub : String) : Bool := charListHasSub sub.data s.data

/-- Expected builder side derived from the API fill's direction label
(`builder_service.py` lines 167-175). -/
def expectedSide (dir : String) : Option String :=
  if strContains dir "Long" then
    some (if strContains dir "Open" then "Bid" else "Ask")
  else if strContains dir "Short" then
    some (if strContains dir "Open" then "Ask" else "Bid")
  else none

/-- The match criteria of `BuilderService.match_fills`
(`builder_service.py` lines 181-196): time within 1000 ms, same coin,
relative price and size differences below `1/10000` (each guarded to pass
when the exchange value is not positive), and side equal to the expectation
when one exists. -/
def matchCriteria (af : Fill) (expSide : Option String) (bf : BuilderFill) :
    Bool :=
  let apiPx := af.px
  let apiSz := qabs af.signedSize
  let timeDiff := |af.time - bf.time_ms|
  let pxDiff := if apiPx > 0 then qdiv (qabs (qsub apiPx bf.px)) apiPx else 0
  let szDiff := if apiSz > 0 then qdiv (qabs (qsub apiSz bf.sz)) apiSz else 0
  decide (timeDiff ≤ 1000) && (af.coin == bf.coin) &&
    decide (pxDiff < mkRat 1 10000) && decide (szDiff < mkRat 1 10000) &&
    (match expSide with
     | none => true
     | some s => s == bf.side)

/-- Scan the not-yet-consumed builder fills in order; on the first one
satisfying the criteria, return the list with it removed
(`builder_service.py` lines 178-200). -/
def scanUnmatched (af : Fill) (expSide : Option String) :
    List (ℕ × BuilderFill) → Option (List (ℕ × BuilderFill))
  | [] => none
  | (i, bf) :: rest =>
    if matchCriteria af expSide bf then some rest
    else
      match scanUnmatched af expSide rest with
      | some rest2 => some ((i, bf) :: rest2)
      | none => none

/-- The greedy outer loop of `BuilderService.match_fills` over the API
fills. -/
def matchFillsAux : ℕ → List Fill → List (ℕ × BuilderFill) → List ℕ
  | _, [], _ => []
  | idx, af :: rest, unmatched =>
    match scanUnmatched af (expectedSide af.dir) unmatched with
    | some unmatched2 => idx :: matchFillsAux (idx + 1) rest unmatched2
    | none => matchFillsAux (idx + 1) rest unmatched

/-- `BuilderService.match_fills`: the MatchResult, as the list of matched
API-fill indices in ascending order. -/
def matchFills (apiFills : List Fill) (builderFills : List BuilderFill) :
    List ℕ :=
  matchFillsAux 0 apiFills builderFills.enum

/-! Concrete inputs for the scenario claims. -/

/-- Fill 0 of the three-fill taint scenario: buy 1 @ 100. -/
def c1Fill0 : Fill := ⟨"BTC", 100, 1, true, 1, "Open Long", 0⟩

/-- Fill 1 of the three-fill taint scenario: buy 1 @ 100. -/
def c1Fill1 : Fill := ⟨"BTC", 100, 1, true, 2, "Open Long", 0⟩

/-- Fill 2 of the three-fill taint scenario: sell 2 @ 100, closing the
lifecycle. -/
def c1Fill2 : Fill := ⟨"BTC", 100, 2, false, 3, "Close Long", 0⟩

/-- The three-fill single-lifecycle sequence with indices `[0, 1, 2]`. -/
def c1Fills : List Fill := [c1Fill0, c1Fill1, c1Fill2]

/-- Claim C1 (counterexample): with MatchResult `{0, 2}` the emitted taint
verdicts are not all `true` — the snapshot for fill 0 is clean, because taint
is decided from the lifecycle fills seen so far and index 0 is matched. -/
theorem taint_scenario_not_all_tainted :
    (reconstructSingle "BTC" (some [0, 2]) c1Fills).map PositionState.tainted ≠
      [some true, some true, some true] := by decide

/-- Claim C1 (amended): the three fills form one lifecycle (net sizes 1, 2,
then flat 0); with MatchResult `{0, 2}` the snapshot for fill 0 carries
`tainted=false`, and the snapshots for fills 1 and 2 — emitted once
unmatched index 1 is in the lifecycle — carry `tainted=true`. -/
theorem taint_scenario_as_of_each_snapshot :
    (reconstructSingle "BTC" (some [0, 2]) c1Fills).map
      (fun s => (s.netSize, s.tainted)) =
      [(1, some false), (2, some true), (0, some true)] := by decide

/-- Coin-A fill opening its lifecycle (index 0, unmatched). -/
def c2FillA0 : Fill := ⟨"AAA", 100, 1, true, 1, "Open Long", 0⟩

/-- Coin-A fill closing its lifecycle (index 1, unmatched). -/
def c2FillA1 : Fill := ⟨"AAA", 100, 1, false, 2, "Close Long", 0⟩

/-- Coin-B fill opening a fresh lifecycle (index 2, matched). -/
def c2FillB : Fill := ⟨"BBB", 100, 1, true, 3, "Open Long", 0⟩

/-- Claim C2 (code evaluated at the failing input): coin A's lifecycle
`[0, 1]` closed at fill 1 (its position is back to `(0, 0)`), and fill 2
opens coin B's lifecycle `[2]`, which is fully matched by
MatchResult `{2}`; yet the third combined snapshot is `tainted=true`,
because the closed lifecycle of coin A is never cleared from
`coin_lifecycles` and keeps contributing to the combined verdict. -/
theorem multi_coin_stale_lifecycle_taints :
    (alistGet (mcStepCore 1 (mcStepCore 0 MCore.init c2FillA0) c2FillA1).positions
        "AAA" = some (0, 0)) ∧
    (reconstructMulti (some [2]) [c2FillA0, c2FillA1, c2FillB]).map
      PositionState.tainted = [some true, some true, some true] := by
  exact ⟨by decide, by decide⟩

/-- First fill of the average-cost scenario: buy 1 @ 100, realized profit 0. -/
def c5Fill0 : Fill := ⟨"BTC", 100, 1, true, 1, "Open Long", 0⟩

/-- Second fill of the average-cost scenario: buy 1 @ 110, realized profit 0. -/
def c5Fill1 : Fill := ⟨"BTC", 110, 1, true, 2, "Open Long", 0⟩

/-- Third fill of the average-cost scenario: sell 2 @ 120, realized profit 30. -/
def c5Fill2 : Fill := ⟨"BTC", 120, 2, false, 3, "Close Long", 30⟩

/-- Claim C5: fills `[buy 1@100, buy 1@110, sell 2@120]` with per-fill
realized profits `[0, 0, 30]` produce exactly the three snapshots
`(net=1, avg=100)`, `(net=2, avg=105)`, and
`(net=0, avg=0, cumulative profit 30)`. -/
theorem average_cost_scenario :
    reconstructSingle "BTC" none [c5Fill0, c5Fill1, c5Fill2] =
      [⟨1, "BTC", 1, 100, 0, none⟩, ⟨2, "BTC", 2, 105, 0, none⟩,
       ⟨3, "BTC", 0, 0, 30, none⟩] := by decide

/-- The matching-scenario exchange fill:
`{time=T, asset=BTC, price=50000, size=0.1, direction="Open Long"}` with
`T = 1000000`. -/
def c7ApiFill : Fill := ⟨"BTC", 50000, mkRat 1 10, true, 1000000, "Open Long", 0⟩

/-- The matching-scenario builder fill as the spec states it:
`time=T+500ms, coin=BTC, side=Bid, px=50000.01, sz=0.0999`. -/
def c7BuilderSizeOff : BuilderFill :=
  ⟨1000500, "BTC", "Bid", mkRat 5000001 100, mkRat 999 10000, 0, 0⟩

/-- The matching-scenario builder fill with a size actually inside the
tolerance: `sz = 0.099999` (relative difference `1/100000`). -/
def c7BuilderBid : BuilderFill :=
  ⟨1000500, "BTC", "Bid", mkRat 5000001 100, mkRat 99999 1000000, 0, 0⟩

/-- The same in-tolerance builder fill with `side=Ask`. -/
def c7BuilderAsk : BuilderFill :=
  ⟨1000500, "BTC", "Ask", mkRat 5000001 100, mkRat 99999 1000000, 0, 0⟩

/-- Claim C7 (counterexample): the builder size `0.0999` against exchange
size `0.1` has relative difference `1/1000`, which is not below the `1/10000`
tolerance, so the scenario's exchange fill does not match it: `match_fills`
returns the empty set. -/
theorem matching_scenario_size_outside_tolerance :
    matchFills [c7ApiFill] [c7BuilderSizeOff] = [] ∧
    qdiv (qabs (qsub (mkRat 1 10) (mkRat 999 10000))) (mkRat 1 10) =
      mkRat 1 1000 ∧
    ¬ (mkRat 1 1000 < mkRat 1 10000) := by
  exact ⟨by decide, by decide, by decide⟩

/-- Claim C7 (amended): with a builder size inside the tolerance
(`sz = 0.099999`), the exchange fill matches the Bid builder fill (all other
scenario values unchanged: `Δt = 500 ms ≤ 1000 ms`, same coin, price
`50000.01` within `1/10000` relatively, expected side Bid from
"Open Long"), and does not match the otherwise-identical Ask variant. -/
theorem matching_scenario_within_tolerance :
    matchFills [c7ApiFill] [c7BuilderBid] = [0] ∧
    matchFills [c7ApiFill] [c7BuilderAsk] = [] := by
  exact ⟨by decide, by decide⟩

/-- A zero-size buy fill at price 100 arriving while flat. -/
def c8ZeroFill : Fill := ⟨"BTC", 100, 0, true, 1, "Open Long", 0⟩

/-- Claim C8 (counterexample): a zero-size fill from flat produces a snapshot
with `netSize = 0` (hence `|netSize| < 1e-10`) but `avgEntryPx = 100 ≠ 0`:
the flat-state invariant fails, because the flat branch starts a "lifecycle"
and sets the average entry price for any fill, without requiring a non-zero
signed size. -/
theorem flat_invariant_zero_size_fill :
    (reconstructSingle "BTC" none [c8ZeroFill]).map
      (fun s => (s.netSize, s.avgEntryPx)) = [(0, 100)] ∧
    qabs 0 < eps ∧ (100 : ℚ) ≠ 0 := by
  exact ⟨by decide, by decide, by decide⟩

/-! General lemmas about the reconstruction loops. -/

theorem reconSingleAux_none_tainted (cn : String) (fills : List Fill)
    (idx : ℕ) (c : SACore) (pnl : ℚ) :
    (reconSingleAux cn none idx c pnl fills).all
      (fun s => s.tainted == none) = true := by
  induction fills generalizing idx c pnl with
  | nil => rfl
  | cons f rest ih =>
    simp only [reconSingleAux, List.all_cons, saTaint, beq_self_eq_true,
      Bool.true_and]
    exact ih _ _ _

theorem reconMultiAux_none_tainted (fills : List Fill)
    (idx : ℕ) (st : MCore) (pnl : ℚ) :
    (reconMultiAux none idx st pnl fills).all
      (fun s => s.tainted == none) = true := by
  induction fills generalizing idx st pnl with
  | nil => rfl
  | cons f rest ih =>
    simp only [reconMultiAux, List.all_cons, mcTaint, beq_self_eq_true,
      Bool.true_and]
    exact ih _ _ _

/-- Claim C3: with no MatchResult supplied, every emitted snapshot — in
single-asset and in all-assets-combined mode alike, for every input fill
sequence — has the unknown verdict `tainted = none`. -/
theorem no_matchresult_all_unknown (fills : List Fill) (coin : Option String) :
    (reconstructPositionHistory fills coin none).all
      (fun s => s.tainted == none) = true := by
  cases coin with
  | none => exact reconMultiAux_none_tainted fills 0 MCore.init 0
  | some c => exact reconSingleAux_none_tainted c fills 0 SACore.init 0

theorem reconSingleAux_length (cn : String) (mr : Option (List ℕ))
    (fills : List Fill) (idx : ℕ) (c : SACore) (pnl : ℚ) :
    (reconSingleAux cn mr idx c pnl fills).length = fills.length := by
  induction fills generalizing idx c pnl with
  | nil => rfl
  | cons f rest ih =>
    simp only [reconSingleAux, List.length_cons]
    rw [ih]

theorem reconMultiAux_length (mr : Option (List ℕ))
    (fills : List Fill) (idx : ℕ) (st : MCore) (pnl : ℚ) :
    (reconMultiAux mr idx st pnl fills).length = fills.length := by
  induction fills generalizing idx st pnl with
  | nil => rfl
  | cons f rest ih =>
    simp only [reconMultiAux, List.length_cons]
    rw [ih]

theorem reconSingleAux_take (cn : String) (mr : Option (List ℕ))
    (fills : List Fill) (n idx : ℕ) (c : SACore) (pnl : ℚ) :
    (reconSingleAux cn mr idx c pnl fills).take n =
      reconSingleAux cn mr idx c pnl (fills.take n) := by
  induction fills generalizing n idx c pnl with
  | nil => simp [reconSingleAux]
  | cons f rest ih =>
    cases n with
    | zero => simp [reconSingleAux]
    | succ m =>
      simp only [reconSingleAux, List.take_succ_cons]
      rw [ih]

theorem reconMultiAux_take (mr : Option (List ℕ))
    (fills : List Fill) (n idx : ℕ) (st : MCore) (pnl : ℚ) :
    (reconMultiAux mr idx st pnl fills).take n =
      reconMultiAux mr idx st pnl (fills.take n) := by
  induction fills generalizing n idx st pnl with
  | nil => simp [reconMultiAux]
  | cons f rest ih =>
    cases n with
    | zero => simp [reconMultiAux]
    | succ m =>
      simp only [reconMultiAux, List.take_succ_cons]
      rw [ih]

/-- Claim C4: in both modes the engine emits exactly one snapshot per input
fill in input order (`len(output) = len(input)`), the first `i + 1` snapshots
are exactly the output on the first `i + 1` fills (so snapshot `i` depends
only on fills `0..i`), and the empty input yields the empty output. -/
theorem one_snapshot_per_fill (fills : List Fill) (coin : Option String)
    (mr : Option (List ℕ)) (i : ℕ) :
    (reconstructPositionHistory fills coin mr).length = fills.length ∧
    (reconstructPositionHistory fills coin mr).take (i + 1) =
      reconstructPositionHistory (fills.take (i + 1)) coin mr ∧
    reconstructPositionHistory [] coin mr = [] := by
  cases coin with
  | none =>
    exact ⟨reconMultiAux_length mr fills 0 MCore.init 0,
      reconMultiAux_take mr fills (i + 1) 0 MCore.init 0, rfl⟩
  | some c =>
    exact ⟨reconSingleAux_length c mr fills 0 SACore.init 0,
      reconSingleAux_take c mr fills (i + 1) 0 SACore.init 0, rfl⟩

/-- Claim C6: on a sign flip — the position is non-flat, the new net size
after the fill is at least epsilon in magnitude, and its sign (as the Python
`new_size > 0` boolean) differs from that of the old net size — the step sets
the net size to the new net size, resets the average entry price to the
fill's execution price, and continues the current lifecycle: the lifecycle
start is unchanged and the fill's index is appended to the same lifecycle. -/
theorem flip_continues_lifecycle (idx : ℕ) (c : SACore) (f : Fill)
    (h1 : eps ≤ qabs c.netSize)
    (h2 : eps ≤ qabs (qadd c.netSize f.signedSize))
    (h3 : decide (qadd c.netSize f.signedSize > 0) ≠ decide (c.netSize > 0)) :
    saStepCore idx c f =
      { netSize := qadd c.netSize f.signedSize, avgEntryPx := f.px,
        lifecycleStart := c.lifecycleStart,
        lifecycleFills := c.lifecycleFills ++ [idx] } := by
  have hne : ¬ qabs c.netSize < eps := not_lt.mpr h1
  have hnew : ¬ qabs (qadd c.netSize f.signedSize) < eps := not_lt.mpr h2
  have hss : ¬ ((c.netSize > 0 ∧ f.signedSize > 0) ∨
      (c.netSize < 0 ∧ f.signedSize < 0)) := by
    rintro (⟨hn, hs⟩ | ⟨hn, hs⟩)
    · have hpos : qadd c.netSize f.signedSize > 0 := by
        rw [qadd_eq_add]
        linarith
      rw [decide_eq_true hpos, decide_eq_true hn] at h3
      exact h3 rfl
    · have hneg : ¬ qadd c.netSize f.signedSize > 0 := by
        rw [qadd_eq_add]
        intro hc
        linarith
      rw [decide_eq_false hneg, decide_eq_false (not_lt.mpr (le_of_lt hn))] at h3
      exact h3 rfl
  simp only [saStepCore]
  rw [if_neg hne, if_neg hss, if_neg hnew, if_pos h3]

/-- The pre-flip state of the concrete flip scenario: net 1 long at average
price 100, one-fill lifecycle started at index 0. -/
def c6Core : SACore :=
  { netSize := 1, avgEntryPx := 100, lifecycleStart := some 0,
    lifecycleFills := [0] }

/-- The flipping fill of the concrete flip scenario: sell 3 @ 90. -/
def c6Fill : Fill := ⟨"BTC", 90, 3, false, 2, "Close Long", 0⟩

/-- Claim C6 (witness): from net 1 long at average 100, the fill sell 3 @ 90
yields net −2 at average 90 inside the same lifecycle (start still index 0,
fills now `[0, 1]`). -/
theorem flip_continues_lifecycle_witness :
    eps ≤ qabs c6Core.netSize ∧
    eps ≤ qabs (qadd c6Core.netSize c6Fill.signedSize) ∧
    decide (qadd c6Core.netSize c6Fill.signedSize > 0) ≠
      decide (c6Core.netSize > 0) ∧
    saStepCore 1 c6Core c6Fill =
      { netSize := -2, avgEntryPx := 90, lifecycleStart := some 0,
        lifecycleFills := [0, 1] } :=
  ⟨by decide, by decide, by decide,
    (flip_continues_lifecycle 1 c6Core c6Fill (by decide) (by decide)
      (by decide)).trans (by decide)⟩

/-- The flat-state invariant of a single-asset core: a sub-epsilon net size
is exactly zero and comes with a zeroed average entry price. -/
def flatInv (c : SACore) : Prop :=
  qabs c.netSize < eps → c.netSize = 0 ∧ c.avgEntryPx = 0

theorem saStepCore_flatInv (idx : ℕ) (c : SACore) (f : Fill)
    (hsz : eps ≤ f.sz) : flatInv (saStepCore idx c f) := by
  have hszpos : 0 < f.sz := lt_of_lt_of_le eps_pos hsz
  have hspos : eps ≤ qabs f.signedSize := by
    rw [Fill.signedSize]
    by_cases hb : f.isBuy
    · rw [if_pos hb, qabs_eq_abs, abs_of_pos hszpos]
      exact hsz
    · rw [if_neg hb, qabs_eq_abs, qneg_eq_neg, abs_neg, abs_of_pos hszpos]
      exact hsz
  simp only [saStepCore]
  split_ifs with h1 h2 h3 h4
  · intro h
    exact absurd h (not_lt.mpr hspos)
  · intro h
    exfalso
    simp only [qabs_eq_abs, qadd_eq_add] at h
    rw [qabs_eq_abs] at h1
    rcases h2 with ⟨hn, hs⟩ | ⟨hn, hs⟩
    · rw [abs_of_pos (by linarith : (0 : ℚ) < c.netSize + f.signedSize)] at h
      rw [abs_of_pos hn] at h1
      exact h1 (by linarith)
    · rw [abs_of_neg (by linarith : c.netSize + f.signedSize < 0)] at h
      rw [abs_of_neg hn] at h1
      exact h1 (by linarith)
  · intro _
    exact ⟨rfl, rfl⟩
  · intro h
    exact absurd h h3
  · intro h
    exact absurd h h3

theorem reconSingleAux_flatInv (cn : String) (mr : Option (List ℕ))
    (fills : List Fill) (idx : ℕ) (c : SACore) (pnl : ℚ)
    (hsz : fills.all (fun f => decide (eps ≤ f.sz)) = true) :
    (reconSingleAux cn mr idx c pnl fills).all
      (fun s => decide (qabs s.netSize < eps →
        s.netSize = 0 ∧ s.avgEntryPx = 0)) = true := by
  induction fills generalizing idx c pnl with
  | nil => rfl
  | cons f rest ih =>
    rw [List.all_cons, Bool.and_eq_true] at hsz
    obtain ⟨hf, hrest⟩ := hsz
    have hc2 := saStepCore_flatInv idx c f (of_decide_eq_true hf)
    simp only [reconSingleAux, List.all_cons, Bool.and_eq_true]
    exact ⟨decide_eq_true hc2, ih _ _ _ hrest⟩

/-- Claim C8 (amended): for every fill sequence in which each fill's size is
at least epsilon (`1e-10`), every snapshot of the single-asset engine
satisfies the flat-state invariant: a net size below epsilon in magnitude is
exactly zero and its average entry price is zero.  (A fill of size below
epsilon — size zero included — violates it, see the counterexample: the flat
branch opens a lifecycle and sets the average entry price for any fill,
without requiring a non-zero signed size.) -/
theorem flat_invariant_epsilon_sizes (coinName : String)
    (mr : Option (List ℕ)) (fills : List Fill)
    (hsz : fills.all (fun f => decide (eps ≤ f.sz)) = true) :
    (reconstructSingle coinName mr fills).all
      (fun s => decide (qabs s.netSize < eps →
        s.netSize = 0 ∧ s.avgEntryPx = 0)) = true :=
  reconSingleAux_flatInv coinName mr fills 0 SACore.init 0 hsz

/-- A two-fill round trip with unit sizes, used to witness the flat-state
invariant. -/
def c8Fills : List Fill :=
  [⟨"BTC", 100, 1, true, 1, "Open Long", 0⟩,
   ⟨"BTC", 100, 1, false, 2, "Close Long", 0⟩]

/-- Claim C8 (witness): the invariant theorem applied to a concrete round
trip of two unit-size fills. -/
theorem flat_invariant_epsilon_sizes_witness :
    (c8Fills.all (fun f => decide (eps ≤ f.sz)) = true) ∧
    (reconstructSingle "BTC" none c8Fills).all
      (fun s => decide (qabs s.netSize < eps →
        s.netSize = 0 ∧ s.avgEntryPx = 0)) = true :=
  ⟨by decide, flat_invariant_epsilon_sizes "BTC" none c8Fills (by decide)⟩

theorem saStepCore_lifecycle_nonempty (idx : ℕ) (c : SACore) (f : Fill)
    (h : qabs c.netSize < eps ∨ c.lifecycleStart.isSome = true) :
    (saStepCore idx c f).lifecycleStart.isSome = true ∧
    (saStepCore idx c f).lifecycleFills ≠ [] := by
  simp only [saStepCore]
  split_ifs with h1 h2 h3 h4
  · exact ⟨rfl, by simp⟩
  · exact ⟨h.resolve_left h1, by simp⟩
  · exact ⟨h.resolve_left h1, by simp⟩
  · exact ⟨h.resolve_left h1, by simp⟩
  · exact ⟨h.resolve_left h1, by simp⟩

theorem any_not_contains_nil (l : List ℕ) (h : l ≠ []) :
    (l.any fun i => !(([] : List ℕ).contains i)) = true := by
  cases l with
  | nil => exact absurd rfl h
  | cons a as => rfl

theorem reconSingleAux_empty_mr_tainted (cn : String) (fills : List Fill)
    (idx : ℕ) (c : SACore) (pnl : ℚ)
    (h : qabs c.netSize < eps ∨ c.lifecycleStart.isSome = true) :
    (reconSingleAux cn (some []) idx c pnl fills).all
      (fun s => s.tainted == some true) = true := by
  induction fills generalizing idx c pnl with
  | nil => rfl
  | cons f rest ih =>
    obtain ⟨hsome, hne⟩ := saStepCore_lifecycle_nonempty idx c f h
    simp only [reconSingleAux, List.all_cons, Bool.and_eq_true]
    constructor
    · obtain ⟨j, hj⟩ := Option.isSome_iff_exists.mp hsome
      simp only [saTaint, hj, any_not_contains_nil _ hne]
      rfl
    · exact ih _ _ _ (Or.inr hsome)

/-- Claim C9: when builder-only mode is requested but the builder service or
a (truthy) time bound is missing, `get_position_history` passes the empty
index set — not the no-MatchResult sentinel — to reconstruction, and a
supplied-but-empty MatchResult yields `tainted = true` on every emitted
snapshot of every fill sequence: the empty set means "no fill attributed",
not "no Matcher run". -/
theorem empty_matchresult_taints (builderServicePresent : Bool)
    (fromMs toMs : Option ℤ) (matcherOutput : List ℕ)
    (coinName : String) (fills : List Fill)
    (h : builderServicePresent = false ∨ fromMs = none ∨ toMs = none) :
    selectBuilderIndices true builderServicePresent fromMs toMs matcherOutput =
      some [] ∧
    (reconstructSingle coinName (some []) fills).all
      (fun s => s.tainted == some true) = true := by
  constructor
  · rcases h with h | h | h <;>
      simp [selectBuilderIndices, truthyMs, h]
  · exact reconSingleAux_empty_mr_tainted coinName fills 0 SACore.init 0
      (Or.inl (by decide))

/-- Claim C9 (witness): the theorem applied with a missing builder service, a
one-fill sequence, and a non-empty would-be matcher output. -/
theorem empty_matchresult_taints_witness :
    ((false = true ∨ (some 1 : Option ℤ) = none ∨ (some 2 : Option ℤ) = none) →
      True) ∧
    selectBuilderIndices true false (some 1) (some 2) [5] = some [] ∧
    (reconstructSingle "BTC" (some [])
      [⟨"BTC", 100, 1, true, 1, "Open Long", 0⟩]).all
      (fun s => s.tainted == some true) = true :=
  ⟨fun _ => trivial,
    empty_matchresult_taints false (some 1) (some 2) [5] "BTC"
      [⟨"BTC", 100, 1, true, 1, "Open Long", 0⟩] (Or.inl rfl)⟩

/-- A fill with its per-fill realized profit zeroed: two fills with equal
scrub are equal in every field except `closedPnl`. -/
def scrubFill (f : Fill) : Fill := { f with closedPnl := 0 }

/-- The fields of a snapshot other than the cumulative realized profit. -/
def publicView (s : PositionState) : ℤ × String × ℚ × ℚ × Option Bool :=
  (s.timeMs, s.coin, s.netSize, s.avgEntryPx, s.tainted)

theorem saStepCore_scrub (idx : ℕ) (c : SACore) (f : Fill) :
    saStepCore idx c (scrubFill f) = saStepCore idx c f := rfl

theorem mcStepCore_scrub (idx : ℕ) (st : MCore) (f : Fill) :
    mcStepCore idx st (scrubFill f) = mcStepCore idx st f := rfl

theorem scrubFill_time (f : Fill) : (scrubFill f).time = f.time := rfl

theorem reconSingleAux_pnl_noninterference (cn : String)
    (mr : Option (List ℕ)) (fills1 fills2 : List Fill) (idx : ℕ) (c : SACore)
    (pnl1 pnl2 : ℚ) (h : fills1.map scrubFill = fills2.map scrubFill) :
    (reconSingleAux cn mr idx c pnl1 fills1).map publicView =
      (reconSingleAux cn mr idx c pnl2 fills2).map publicView := by
  induction fills1 generalizing fills2 idx c pnl1 pnl2 with
  | nil =>
    cases fills2 with
    | nil => rfl
    | cons g gs => exact absurd h (by simp)
  | cons f fs ih =>
    cases fills2 with
    | nil => exact absurd h (by simp)
    | cons g gs =>
      simp only [List.map_cons, List.cons.injEq] at h
      obtain ⟨hfg, hrest⟩ := h
      have hstep : saStepCore idx c f = saStepCore idx c g := by
        rw [← saStepCore_scrub idx c f, hfg, saStepCore_scrub]
      have htime : f.time = g.time := by
        rw [← scrubFill_time f, hfg, scrubFill_time]
      simp only [reconSingleAux, List.map_cons]
      congr 1
      · simp only [publicView]
        rw [hstep, htime]
      · rw [hstep]
        exact ih gs (idx + 1) (saStepCore idx c g) _ _ hrest

theorem reconMultiAux_pnl_noninterference (mr : Option (List ℕ))
    (fills1 fills2 : List Fill) (idx : ℕ) (st : MCore) (pnl1 pnl2 : ℚ)
    (h : fills1.map scrubFill = fills2.map scrubFill) :
    (reconMultiAux mr idx st pnl1 fills1).map publicView =
      (reconMultiAux mr idx st pnl2 fills2).map publicView := by
  induction fills1 generalizing fills2 idx st pnl1 pnl2 with
  | nil =>
    cases fills2 with
    | nil => rfl
    | cons g gs => exact absurd h (by simp)
  | cons f fs ih =>
    cases fills2 with
    | nil => exact absurd h (by simp)
    | cons g gs =>
      simp only [List.map_cons, List.cons.injEq] at h
      obtain ⟨hfg, hrest⟩ := h
      have hstep : mcStepCore idx st f = mcStepCore idx st g := by
        rw [← mcStepCore_scrub idx st f, hfg, mcStepCore_scrub]
      have htime : f.time = g.time := by
        rw [← scrubFill_time f, hfg, scrubFill_time]
      simp only [reconMultiAux, List.map_cons]
      congr 1
      · simp only [publicView]
        rw [hstep, htime]
      · rw [hstep]
        exact ih gs (idx + 1) (mcStepCore idx st g) _ _ hrest

/-- Claim C10: noninterference of the reported per-fill profit.  For two fill
sequences that agree on every field except `closedPnl` (equal after
`scrubFill`), the engine — in either mode, with the same optional
MatchResult — emits snapshot sequences agreeing in `timeMs`, `coin`,
`netSize`, `avgEntryPx`, and `tainted` at every position; the profit values
influence only the cumulative `realizedPnl` field. -/
theorem pnl_noninterference (coin : Option String) (mr : Option (List ℕ))
    (fills1 fills2 : List Fill)
    (h : fills1.map scrubFill = fills2.map scrubFill) :
    (reconstructPositionHistory fills1 coin mr).map publicView =
      (reconstructPositionHistory fills2 coin mr).map publicView := by
  cases coin with
  | none =>
    exact reconMultiAux_pnl_noninterference mr fills1 fills2 0 MCore.init 0 0 h
  | some c =>
    exact reconSingleAux_pnl_noninterference c mr fills1 fills2 0 SACore.init
      0 0 h

/-- Claim C10 (witness): two one-fill sequences differing only in the
reported profit (5 versus 7) produce the same public view. -/
theorem pnl_noninterference_witness :
    ([(⟨"BTC", 100, 1, true, 1, "Open Long", 5⟩ : Fill)].map scrubFill =
      [(⟨"BTC", 100, 1, true, 1, "Open Long", 7⟩ : Fill)].map scrubFill) ∧
    (reconstructPositionHistory [⟨"BTC", 100, 1, true, 1, "Open Long", 5⟩]
      (some "BTC") none).map publicView =
    (reconstructPositionHistory [⟨"BTC", 100, 1, true, 1, "Open Long", 7⟩]
      (some "BTC") none).map publicView :=
  ⟨by decide,
    pnl_noninterference (some "BTC") none
      [⟨"BTC", 100, 1, true, 1, "Open Long", 5⟩]
      [⟨"BTC", 100, 1, true, 1, "Open Long", 7⟩] (by decide)⟩

end HyprLedger
